import Mathlib

/-!
Shallow embedding of the country-data loading pipeline of the repository
(the DataSource module): limit tracking, name resolution over the country
reference database, CSV joining, and the query facade.  JavaScript numbers
are modelled by an inductive type with an exact rational payload for finite
values; JavaScript Maps are modelled by association lists with the Map
insertion-order and overwrite semantics; the mutation that
Object.assign(countryInfo, ...) performs on the registry objects is modelled
by threading the registry through the load loop and by letting the data map
store the registry key (the object reference) of each published country.
-/

/-- JavaScript number as used by the pipeline: NaN, the two infinities, or a
finite value carried exactly as a rational. -/
inductive JNum where
  | nan : JNum
  | pinf : JNum
  | ninf : JNum
  | fin : ℚ → JNum
deriving DecidableEq

/-- Number.isFinite. -/
def JNum.isFinite : JNum → Bool
  | .fin _ => true
  | _ => false

/-- Math.min on the modelled numbers: NaN absorbs, negative infinity wins,
positive infinity is neutral. -/
def jmin : JNum → JNum → JNum
  | .nan, _ => .nan
  | _, .nan => .nan
  | .ninf, _ => .ninf
  | _, .ninf => .ninf
  | .pinf, b => b
  | a, .pinf => a
  | .fin a, .fin b => .fin (min a b)

/-- Math.max on the modelled numbers. -/
def jmax : JNum → JNum → JNum
  | .nan, _ => .nan
  | _, .nan => .nan
  | .pinf, _ => .pinf
  | _, .pinf => .pinf
  | .ninf, b => b
  | a, .ninf => a
  | .fin a, .fin b => .fin (max a b)

/-- The Limit class: a running numeric range. -/
structure Limit where
  min : JNum
  max : JNum
deriving DecidableEq

/-- Field defaults of Limit: min starts at positive infinity, max at negative
infinity (the state of a fresh new Limit()). -/
def Limit.new : Limit := { min := JNum.pinf, max := JNum.ninf }

/-- Limit.expandRange: non-finite input is a no-op; otherwise
this.min = Math.min(newNumber, this.min) and symmetrically for max. -/
def Limit.expandRange (l : Limit) (newNumber : JNum) : Limit :=
  if newNumber.isFinite then
    { min := jmin newNumber l.min, max := jmax newNumber l.max }
  else l

/-- The StatLimits class: one Limit per statistic category. -/
structure StatLimits where
  gdp : Limit
  ineq_comb : Limit
  ineq_edu : Limit
  ineq_inc : Limit
  ineq_life : Limit
deriving DecidableEq

/-- A fresh new StatLimits(): every field a fresh Limit. -/
def StatLimits.new : StatLimits :=
  { gdp := Limit.new, ineq_comb := Limit.new, ineq_edu := Limit.new,
    ineq_inc := Limit.new, ineq_life := Limit.new }

/-- The dynamic field access limits[resourceID].expandRange(...) of the
source, spelled out over the five statistic categories that occur as
resource identifiers (no other identifier is ever passed). -/
def StatLimits.expandAt (s : StatLimits) (resourceID : String) (n : JNum) : StatLimits :=
  if resourceID = "gdp" then { s with gdp := s.gdp.expandRange n }
  else if resourceID = "ineq_comb" then { s with ineq_comb := s.ineq_comb.expandRange n }
  else if resourceID = "ineq_edu" then { s with ineq_edu := s.ineq_edu.expandRange n }
  else if resourceID = "ineq_inc" then { s with ineq_inc := s.ineq_inc.expandRange n }
  else if resourceID = "ineq_life" then { s with ineq_life := s.ineq_life.expandRange n }
  else s

/-- Whitespace trimming on a character list (both ends), the semantics of
String.prototype.trim on the ASCII data handled by the pipeline. -/
def trimChars (cs : List Char) : List Char :=
  ((cs.dropWhile Char.isWhitespace).reverse.dropWhile Char.isWhitespace).reverse

/-- String.prototype.trim. -/
def jsTrim (s : String) : String := String.mk (trimChars s.data)

/-- Value of a run of decimal digit characters. -/
def digitsToNat (l : List Char) : Nat :=
  l.foldl (fun a c => 10 * a + (c.toNat - 48)) 0

/-- Leading optional sign of a JavaScript numeric literal; returns whether
the value is negated and the remaining characters. -/
def parseSignChars : List Char → Bool × List Char
  | '-' :: r => (true, r)
  | '+' :: r => (false, r)
  | r => (false, r)

/-- JavaScript parseInt (default radix 10) applied to a possibly absent
string: an absent value (null/undefined row or cell) coerces to a string
with no leading digits and yields NaN.  Restricted to the decimal inputs the
pipeline handles (no hex prefix handling). -/
def parseIntJS : Option String → JNum
  | none => JNum.nan
  | some s =>
    let cs := s.data.dropWhile Char.isWhitespace
    let p := parseSignChars cs
    let ds := p.2.takeWhile Char.isDigit
    if ds.isEmpty then JNum.nan
    else JNum.fin (if p.1 then -(digitsToNat ds : ℚ) else (digitsToNat ds : ℚ))

/-- JavaScript parseFloat applied to a possibly absent string, restricted to
the plain decimal notation the data files use (sign, integer digits,
optional fraction; no exponent or Infinity forms): the longest valid numeric
prefix is parsed, anything without one yields NaN.  The decimal value
intpart.fracpart is the rational (intpart * 10 ^ k + fracpart) / 10 ^ k for
k the fraction length. -/
def parseFloatJS : Option String → JNum
  | none => JNum.nan
  | some s =>
    let cs := s.data.dropWhile Char.isWhitespace
    let p := parseSignChars cs
    let ip := p.2.takeWhile Char.isDigit
    let rest := p.2.dropWhile Char.isDigit
    let fp := match rest with
      | '.' :: r => r.takeWhile Char.isDigit
      | _ => []
    if ip.isEmpty && fp.isEmpty then JNum.nan
    else
      let mag : ℚ := mkRat (digitsToNat ip * 10 ^ fp.length + digitsToNat fp) (10 ^ fp.length)
      JNum.fin (if p.1 then -mag else mag)

/-- A JavaScript Map with string keys: an association list in insertion
order. -/
abbrev JMap (α : Type) := List (String × α)

/-- Map.prototype.get. -/
def mapGet {α : Type} : JMap α → String → Option α
  | [], _ => none
  | p :: rest, k => if p.1 = k then some p.2 else mapGet rest k

/-- Map.prototype.set: overwrite in place when the key is present (keeping
its position), append otherwise. -/
def mapSet {α : Type} (m : JMap α) (k : String) (v : α) : JMap α :=
  if (mapGet m k).isSome then m.map (fun p => if p.1 = k then (k, v) else p)
  else m ++ [(k, v)]

/-- new Map(entries): sequential Map.set over the entry list. -/
def mapOfList {α : Type} (l : List (String × α)) : JMap α :=
  l.foldl (fun m p => mapSet m p.1 p.2) []

/-- One parsed row of a semicolon-separated statistic source: the Country
column and the remaining year columns (a present column maps the year header
to its raw string value, an absent column reads as undefined). -/
structure CSVRow where
  country : String
  cells : JMap String
deriving DecidableEq

/-- csvLoader: map each row under its trimmed Country name
(new Map(rows.map(row => [row.Country.trim(), row]))). -/
def csvLoader (rows : List CSVRow) : JMap CSVRow :=
  mapOfList (rows.map fun r => (jsTrim r.country, r))

/-- One native-language name entry of a reference-database record. -/
structure NativeName where
  common : String
  official : String
deriving DecidableEq

/-- One record of the countries reference database (countries-unescaped.json):
3-letter code, common and official names, native-language names in iteration
order, alternative spellings, region. -/
structure CountryRecord where
  cca3 : String
  nameCommon : String
  nameOfficial : String
  native : List NativeName
  altSpellings : List String
  region : String
deriving DecidableEq

/-- The fixed manual override table forcedCountryNames. -/
def forcedCountryNames : JMap (List String) :=
  [("BRN", ["Brunei Darussalam"]),
   ("PSE", ["Palestine, State of"]),
   ("STP", ["Sao Tome and Principe"]),
   ("MKD", ["The former Yugoslav Republic of Macedonia"]),
   ("HKG", ["Hong Kong, China (SAR)"]),
   ("COG", ["Congo (Democratic Republic of the)"]),
   ("COD", ["Congo"])]

/-- Split a character list at the first occurrence of the marker " of ",
returning the characters strictly before the marker and those strictly after
it (the semantics of indexOf(" of ") plus the two substring calls). -/
def splitAtOf : List Char → Option (List Char × List Char)
  | [] => none
  | c :: rest =>
    if List.take 4 (c :: rest) = [' ', 'o', 'f', ' '] then some ([], List.drop 3 rest)
    else
      match splitAtOf rest with
      | none => none
      | some (p, s) => some (c :: p, s)

/-- The order-inverted variant of a candidate name: when the name contains
" of ", the source builds prefix = substring(0, ofPos + 4).trim() (which
keeps the word "of") and countryName = substring(ofPos + 4).trim(), and
pushes "countryName (prefix)". -/
def orderVariant (s : String) : Option String :=
  match splitAtOf s.data with
  | none => none
  | some (p, suf) =>
    some (jsTrim (String.mk suf) ++ " (" ++ jsTrim (String.mk p ++ " of ") ++ ")")

/-- The candidate names collected before variant derivation: common and
official names followed by the native-language common/official pairs. -/
def baseNativeNames (c : CountryRecord) : List String :=
  [c.nameCommon, c.nameOfficial] ++ (c.native.flatMap fun n => [n.common, n.official])

/-- The full candidate-name list of one record, in insertion order: base and
native names, then the order-inverted variants derived from exactly those
names, then the alternative spellings, then the forced names of the manual
override table. -/
def recordNames (c : CountryRecord) : List String :=
  let alt := baseNativeNames c
  alt ++ alt.filterMap orderVariant ++ c.altSpellings
      ++ ((mapGet forcedCountryNames c.cca3).getD [])

/-- Insert a list of candidate names into the name index, all mapping to the
given code (alternateNames.forEach(name => nameDB.set(name, cca3))). -/
def insertNames (m : JMap String) (ns : List String) (code : String) : JMap String :=
  ns.foldl (fun m n => mapSet m n code) m

/-- The Name Resolution Index nameDB built by readCountryInfoDB: process the
records in database order, inserting every candidate name of each record. -/
def buildNameDB (db : List CountryRecord) : JMap String :=
  db.foldl (fun m c => insertNames m (recordNames c) c.cca3) []

/-- The inequality sub-record, fields in source order. -/
structure InequalityStats where
  combined : JNum
  education : JNum
  life_expectancy : JNum
  income : JNum
deriving DecidableEq

/-- The per-year statistics record of the join output. -/
structure CountryStats where
  gdp : JNum
  inequality : InequalityStats
deriving DecidableEq

/-- One entry of the Country Info Registry: the {code, name, region} object
built per record.  The stats field models the property that
Object.assign(countryInfo, {stats}) adds to this very object during the
join; immediately after construction it is absent. -/
structure InfoEntry where
  code : String
  name : String
  region : String
  stats : Option (JMap CountryStats)
deriving DecidableEq

/-- The Country Info Registry infoFromCode:
new Map(srcJson.map(country => [cca3, {code, name: name.common, region}])). -/
def buildInfoDB (db : List CountryRecord) : JMap InfoEntry :=
  mapOfList (db.map fun c =>
    (c.cca3, { code := c.cca3, name := c.nameCommon, region := c.region, stats := none }))

/-- The raw inputs of one load: the five statistic sources (already split
into rows by the semicolon DSV parser) and the reference database. -/
structure LoadInput where
  gdp : List CSVRow
  ineq_comb : List CSVRow
  ineq_edu : List CSVRow
  ineq_inc : List CSVRow
  ineq_life : List CSVRow
  countryDB : List CountryRecord
deriving DecidableEq

/-- new Map(await dataSrcLoaders): the five loaded sources keyed by resource
identifier (the five keys are pairwise distinct literals, so the Map is the
entry list itself). -/
def buildData (inp : LoadInput) : JMap (JMap CSVRow) :=
  [("gdp", csvLoader inp.gdp),
   ("ineq_comb", csvLoader inp.ineq_comb),
   ("ineq_edu", csvLoader inp.ineq_edu),
   ("ineq_inc", csvLoader inp.ineq_inc),
   ("ineq_life", csvLoader inp.ineq_life)]

/-- The value part of safeFetchData: the raw cell row[year], or an absent
value when the source has no row for the country (null) or the row lacks the
year column (undefined). -/
def fetchCell (data : JMap (JMap CSVRow)) (countryName resourceID year : String) : Option String :=
  match mapGet ((mapGet data resourceID).getD []) countryName with
  | none => none
  | some row => mapGet row.cells year

/-- The effect part of safeFetchData on the limits: when the row exists,
limits[resourceID].expandRange(parseFloat(row[year])) runs; a missing row
leaves the limits untouched. -/
def fetchExpand (data : JMap (JMap CSVRow)) (countryName resourceID year : String)
    (limits : StatLimits) : StatLimits :=
  match mapGet ((mapGet data resourceID).getD []) countryName with
  | none => limits
  | some row => limits.expandAt resourceID (parseFloatJS (mapGet row.cells year))

/-- The CountryStats value built for one year, exactly as the object literal
in readCountryStats: gdp is parseInt of the gdp cell; combined and education
are parseFloat of the ineq_comb and ineq_edu cells; life_expectancy is
parseFloat of the ineq_inc cell and income is parseFloat of the ineq_life
cell (that is how the source assigns them). -/
def yearStats (data : JMap (JMap CSVRow)) (countryName year : String) : CountryStats :=
  { gdp := parseIntJS (fetchCell data countryName "gdp" year),
    inequality :=
      { combined := parseFloatJS (fetchCell data countryName "ineq_comb" year),
        education := parseFloatJS (fetchCell data countryName "ineq_edu" year),
        life_expectancy := parseFloatJS (fetchCell data countryName "ineq_inc" year),
        income := parseFloatJS (fetchCell data countryName "ineq_life" year) } }

/-- The limit updates of one year, in the evaluation order of the object
literal: gdp, ineq_comb, ineq_edu, ineq_inc, ineq_life. -/
def yearLimits (data : JMap (JMap CSVRow)) (countryName year : String)
    (limits : StatLimits) : StatLimits :=
  fetchExpand data countryName "ineq_life" year
    (fetchExpand data countryName "ineq_inc" year
      (fetchExpand data countryName "ineq_edu" year
        (fetchExpand data countryName "ineq_comb" year
          (fetchExpand data countryName "gdp" year limits))))

/-- The fixed year range. -/
def years : List String :=
  ["2010", "2011", "2012", "2013", "2014", "2015", "2016", "2017"]

/-- readCountryStats: for each year of the fixed range, set the year's
CountryStats in the map and apply the limit updates of that year; returns
the stats map together with the updated limits (the source mutates the
limits object in place). -/
def readCountryStats (data : JMap (JMap CSVRow)) (countryName : String)
    (limits : StatLimits) : JMap CountryStats × StatLimits :=
  years.foldl
    (fun p year => (mapSet p.1 year (yearStats data countryName year),
                    yearLimits data countryName year p.2))
    ([], limits)

/-- The stats map of one country, independent of the limits threading. -/
def statsOf (data : JMap (JMap CSVRow)) (countryName : String) : JMap CountryStats :=
  years.foldl (fun m year => mapSet m year (yearStats data countryName year)) []

/-- The state of the loading loop, which is also the published DataSource:
the country map (display name to the registry key of the aliased country
object), the accumulated limits, and the registry whose entries the loop
mutates via Object.assign. -/
structure DataSource where
  data : JMap String
  dataLimits : StatLimits
  registry : JMap InfoEntry
deriving DecidableEq

/-- One iteration of the loadData loop for one raw anchor name: trim it,
resolve it through the name index and the registry, fail the whole load with
the assertion message when that gives nothing, and otherwise read the
country's stats, attach them to the registry object and publish the object
under its display name. -/
def loadStep (ndb : JMap String) (data : JMap (JMap CSVRow)) (st : DataSource)
    (k : String) : Except String DataSource :=
  let name := jsTrim k
  match (mapGet ndb name).bind (fun c => mapGet st.registry c) with
  | none => Except.error ("No country info for " ++ name)
  | some entry =>
    let res := readCountryStats data name st.dataLimits
    Except.ok
      { data := mapSet st.data entry.name entry.code,
        dataLimits := res.2,
        registry := mapSet st.registry entry.code { entry with stats := some res.1 } }

/-- The loadData loop over the anchor source's key list. -/
def loadLoop (ndb : JMap String) (data : JMap (JMap CSVRow)) :
    List String → DataSource → Except String DataSource
  | [], st => Except.ok st
  | k :: ks, st =>
    match loadStep ndb data st k with
    | Except.error e => Except.error e
    | Except.ok st2 => loadLoop ndb data ks st2

/-- The key list of the anchor (gdp) source, in row order. -/
def anchorKeys (inp : LoadInput) : List String :=
  ((mapGet (buildData inp) "gdp").getD []).map Prod.fst

/-- loadData: build the name index, the registry and the source maps, then
run the loop over the gdp source's keys starting from an empty country map
and fresh limits.  An assertion failure rejects the whole load. -/
def loadData (inp : LoadInput) : Except String DataSource :=
  loadLoop (buildNameDB inp.countryDB) (buildData inp) (anchorKeys inp)
    { data := [], dataLimits := StatLimits.new, registry := buildInfoDB inp.countryDB }

/-- getCountry: lookup by display name; the stored registry key stands for
the object reference. -/
def getCountry (ds : DataSource) (name : String) : Option InfoEntry :=
  (mapGet ds.data name).bind fun c => mapGet ds.registry c

/-- getCountries: the values of the country map in insertion order. -/
def getCountries (ds : DataSource) : List InfoEntry :=
  ds.data.filterMap fun p => mapGet ds.registry p.2

/-- getStatLimits. -/
def getStatLimits (ds : DataSource) : StatLimits := ds.dataLimits

/-- The name-to-code step of resolution for one raw anchor name. -/
def resolveCode (inp : LoadInput) (k : String) : Option String :=
  mapGet (buildNameDB inp.countryDB) (jsTrim k)

/-- Full resolution of one raw anchor name to its registry entry as built
(before any join mutation). -/
def resolveInfo (inp : LoadInput) (k : String) : Option InfoEntry :=
  (resolveCode inp k).bind fun c => mapGet (buildInfoDB inp.countryDB) c

/-- The (display name, code) pair a resolvable anchor name contributes to
the country map. -/
def pairOf (inp : LoadInput) (k : String) : Option (String × String) :=
  (resolveInfo inp k).map fun e => (e.name, e.code)

/-- The static fields of a registry entry (everything but the stats the join
attaches). -/
def stripE (e : InfoEntry) : String × String × String := (e.code, e.name, e.region)

/-- The registry invariant of the load loop: the static fields of every
entry agree with the registry as built from the reference database. -/
def regInv (db : List CountryRecord) (reg : JMap InfoEntry) : Prop :=
  ∀ c, (mapGet reg c).map stripE = (mapGet (buildInfoDB db) c).map stripE

/-- The stats invariant of the load loop: every published country points at
a registry entry whose attached stats map is the one readCountryStats built
for some trimmed anchor name. -/
def statsInv (data : JMap (JMap CSVRow)) (st : DataSource) : Prop :=
  ∀ p ∈ st.data, ∃ e, mapGet st.registry p.2 = some e ∧
    ∃ n, e.stats = some (statsOf data n)

/-- Concrete reference record used in the worked examples: Chile. -/
def chlRec : CountryRecord :=
  { cca3 := "CHL", nameCommon := "Chile", nameOfficial := "Republic of Chile",
    native := [], altSpellings := [], region := "Americas" }

/-- Concrete reference record used in the worked examples: Bulgaria. -/
def bgrRec : CountryRecord :=
  { cca3 := "BGR", nameCommon := "Bulgaria", nameOfficial := "Republic of Bulgaria",
    native := [], altSpellings := [], region := "Europe" }

/-- Concrete reference record used in the worked examples: South Korea,
whose official name contains the " of " pattern. -/
def korRec : CountryRecord :=
  { cca3 := "KOR", nameCommon := "South Korea", nameOfficial := "Republic of Korea",
    native := [], altSpellings := [], region := "Asia" }

/-- Concrete reference record with code COD, the code the override table
forces the name "Congo" onto. -/
def codRec : CountryRecord :=
  { cca3 := "COD", nameCommon := "DR Congo",
    nameOfficial := "Democratic Republic of the Congo",
    native := [], altSpellings := [], region := "Africa" }

/-- Concrete reference record of a different country whose common name is
exactly the forced name "Congo" of the COD record. -/
def aaaRec : CountryRecord :=
  { cca3 := "AAA", nameCommon := "Congo", nameOfficial := "Congo",
    native := [], altSpellings := [], region := "Africa" }

/-- Input whose four inequality sources carry four distinct values for the
same country and year, separating the four inequality fields. -/
def inpC1 : LoadInput :=
  { gdp := [⟨"Chile", [("2010", "100")]⟩],
    ineq_comb := [⟨"Chile", [("2010", "0.1")]⟩],
    ineq_edu := [⟨"Chile", [("2010", "0.2")]⟩],
    ineq_inc := [⟨"Chile", [("2010", "0.3")]⟩],
    ineq_life := [⟨"Chile", [("2010", "0.4")]⟩],
    countryDB := [chlRec] }

/-- Input whose anchor source names a country absent from the reference
database. -/
def inpC3e : LoadInput :=
  { gdp := [⟨"Republicland", [("2010", "1")]⟩],
    ineq_comb := [], ineq_edu := [], ineq_inc := [], ineq_life := [],
    countryDB := [chlRec] }

/-- Input with two anchor rows and an inequality source that also has a row
for a country (Germany) absent from the anchor source. -/
def inpC4 : LoadInput :=
  { gdp := [⟨"Chile", [("2010", "100")]⟩, ⟨"Bulgaria", [("2010", "50")]⟩],
    ineq_comb := [⟨"Chile", [("2010", "0.1")]⟩, ⟨"Germany", [("2010", "0.2")]⟩],
    ineq_edu := [], ineq_inc := [], ineq_life := [],
    countryDB := [chlRec, bgrRec] }

/-- Input with a single resolvable anchor row, for the join-completeness
example. -/
def inpC7w : LoadInput :=
  { gdp := [⟨"Chile", [("2010", "100")]⟩],
    ineq_comb := [], ineq_edu := [], ineq_inc := [], ineq_life := [],
    countryDB := [chlRec] }

/-- Input where the combined-inequality source misses the row of Bulgaria,
a country present in the anchor source. -/
def inpC8 : LoadInput :=
  { gdp := [⟨"Chile", [("2010", "100")]⟩, ⟨"Bulgaria", [("2010", "50")]⟩],
    ineq_comb := [⟨"Chile", [("2010", "0.1")]⟩],
    ineq_edu := [], ineq_inc := [], ineq_life := [],
    countryDB := [chlRec, bgrRec] }

/-- Input where the income-inequality source (ineq_inc) has no row for
Chile while the life-expectancy source has one, separating which stats field
receives the missing source's sentinel. -/
def inpC8ce : LoadInput :=
  { gdp := [⟨"Chile", [("2010", "100")]⟩],
    ineq_comb := [], ineq_edu := [],
    ineq_inc := [],
    ineq_life := [⟨"Chile", [("2010", "0.4")]⟩],
    countryDB := [chlRec] }

/-- Minimal input with one resolvable anchor row, for observing the registry
before and after the join. -/
def inpC9 : LoadInput :=
  { gdp := [⟨"Chile", [("2010", "100")]⟩],
    ineq_comb := [], ineq_edu := [], ineq_inc := [], ineq_life := [],
    countryDB := [chlRec] }

/-- Input whose gdp field carries a fractional raw value, separating the
float parse fed to the gdp Limit from the integer parse stored in the
stats. -/
def inpC10 : LoadInput :=
  { gdp := [⟨"Chile", [("2010", "3.5")]⟩],
    ineq_comb := [], ineq_edu := [], ineq_inc := [], ineq_life := [],
    countryDB := [chlRec] }

/-! ### Association-list lemmas for the JavaScript Map model -/

theorem mapGet_map_update {α : Type} (k : String) (v : α) :
    ∀ m : JMap α, (mapGet m k).isSome = true →
      mapGet (m.map (fun p => if p.1 = k then (k, v) else p)) k = some v := by
  intro m
  induction m with
  | nil => intro h; simp [mapGet] at h
  | cons p rest ih =>
    intro h
    by_cases hp : p.1 = k
    · simp [mapGet, hp]
    · simp only [mapGet, hp, if_false] at h
      simpa [mapGet, hp] using ih h

theorem mapGet_map_update_ne {α : Type} (k k' : String) (v : α) (h : k' ≠ k) :
    ∀ m : JMap α,
      mapGet (m.map (fun p => if p.1 = k then (k, v) else p)) k' = mapGet m k' := by
  intro m
  induction m with
  | nil => simp [mapGet]
  | cons p rest ih =>
    by_cases hp : p.1 = k
    · have hk : ¬ k = k' := fun hkk => h hkk.symm
      simp [mapGet, hp, hk, ih]
    · by_cases hp2 : p.1 = k'
      · simp [mapGet, hp, hp2, h]
      · simp [mapGet, hp, hp2, ih]

theorem mapGet_append {α : Type} (k : String) :
    ∀ m m2 : JMap α, mapGet (m ++ m2) k =
      match mapGet m k with
      | some v => some v
      | none => mapGet m2 k := by
  intro m m2
  induction m with
  | nil => simp [mapGet]
  | cons p rest ih =>
    by_cases hp : p.1 = k
    · simp [mapGet, hp]
    · simp [mapGet, hp, ih]

theorem mapGet_mapSet_self {α : Type} (m : JMap α) (k : String) (v : α) :
    mapGet (mapSet m k v) k = some v := by
  cases hg : mapGet m k with
  | some w =>
    have hs : (mapGet m k).isSome = true := by rw [hg]; rfl
    rw [mapSet, if_pos hs]
    exact mapGet_map_update k v m hs
  | none =>
    have hs : ¬ (mapGet m k).isSome = true := by rw [hg]; simp
    rw [mapSet, if_neg hs, mapGet_append, hg]
    simp [mapGet]

theorem mapGet_mapSet_ne {α : Type} (m : JMap α) (k k' : String) (v : α) (h : k' ≠ k) :
    mapGet (mapSet m k v) k' = mapGet m k' := by
  by_cases hs : (mapGet m k).isSome = true
  · rw [mapSet, if_pos hs]
    exact mapGet_map_update_ne k k' v h m
  · rw [mapSet, if_neg hs, mapGet_append]
    cases hg : mapGet m k' with
    | some v2 => rfl
    | none =>
      have hk : ¬ k = k' := fun hkk => h hkk.symm
      simp [mapGet, hk]

theorem mapGet_mapSet_cases {α : Type} (m : JMap α) (k k' : String) (v w : α)
    (h : mapGet (mapSet m k v) k' = some w) :
    (k' = k ∧ w = v) ∨ mapGet m k' = some w := by
  by_cases hk : k' = k
  · subst hk
    rw [mapGet_mapSet_self] at h
    exact Or.inl ⟨rfl, (Option.some.injEq _ _ ▸ h).symm⟩
  · rw [mapGet_mapSet_ne m k k' v hk] at h
    exact Or.inr h

theorem mem_mapSet {α : Type} (m : JMap α) (k : String) (v : α) (p : String × α)
    (h : p ∈ mapSet m k v) : p ∈ m ∨ p = (k, v) := by
  by_cases hs : (mapGet m k).isSome = true
  · simp only [mapSet, hs, if_true] at h
    rcases List.mem_map.mp h with ⟨q, hq, hfq⟩
    by_cases hqk : q.1 = k
    · simp only [hqk, if_true] at hfq
      exact Or.inr hfq.symm
    · simp only [hqk, if_false] at hfq
      exact Or.inl (hfq ▸ hq)
  · simp only [mapSet, hs, if_false] at h
    rcases List.mem_append.mp h with h1 | h1
    · exact Or.inl h1
    · exact Or.inr (List.mem_singleton.mp h1)

theorem mapSet_of_get_none {α : Type} (m : JMap α) (k : String) (v : α)
    (h : mapGet m k = none) : mapSet m k v = m ++ [(k, v)] := by
  simp [mapSet, h]

/-! ### Limit-tracker lemmas -/

theorem jmin_idem (a : ℚ) (m : JNum) :
    jmin (JNum.fin a) (jmin (JNum.fin a) m) = jmin (JNum.fin a) m := by
  cases m with
  | nan => rfl
  | pinf => simp [jmin]
  | ninf => rfl
  | fin b => simp [jmin, ← min_assoc]

theorem jmax_idem (a : ℚ) (m : JNum) :
    jmax (JNum.fin a) (jmax (JNum.fin a) m) = jmax (JNum.fin a) m := by
  cases m with
  | nan => rfl
  | pinf => rfl
  | ninf => simp [jmax]
  | fin b => simp [jmax, ← max_assoc]

/-- C6: expandRange ignores every non-finite input; on a finite input it
takes the pointwise Math.min/Math.max with the current bounds; it is
idempotent under repeated application of the same value; folding it over
[3, 1, 4, 1, 5, NaN, 9] from a fresh Limit gives {min 1, max 9}; and over a
sequence with no finite member it leaves the fresh state
{+infinity, -infinity} unchanged. -/
theorem c6_expand_range_spec :
    (∀ (l : Limit) (n : JNum), n.isFinite = false → l.expandRange n = l) ∧
    (∀ (l : Limit) (n : JNum), n.isFinite = true →
      (l.expandRange n).min = jmin n l.min ∧ (l.expandRange n).max = jmax n l.max) ∧
    (∀ (l : Limit) (n : JNum), (l.expandRange n).expandRange n = l.expandRange n) ∧
    (List.foldl Limit.expandRange Limit.new
        [JNum.fin 3, JNum.fin 1, JNum.fin 4, JNum.fin 1, JNum.fin 5, JNum.nan, JNum.fin 9]
      = { min := JNum.fin 1, max := JNum.fin 9 }) ∧
    (∀ ns : List JNum, (∀ n ∈ ns, n.isFinite = false) →
      List.foldl Limit.expandRange Limit.new ns = Limit.new) := by
  refine ⟨?_, ?_, ?_, by decide, ?_⟩
  · intro l n h
    simp [Limit.expandRange, h]
  · intro l n h
    simp [Limit.expandRange, h]
  · intro l n
    cases hn : n.isFinite with
    | false => simp [Limit.expandRange, hn]
    | true =>
      cases n with
      | fin a => simp [Limit.expandRange, hn, jmin_idem, jmax_idem]
      | nan => simp [JNum.isFinite] at hn
      | pinf => simp [JNum.isFinite] at hn
      | ninf => simp [JNum.isFinite] at hn
  · intro ns h
    induction ns with
    | nil => rfl
    | cons n ns ih =>
      have h1 : Limit.new.expandRange n = Limit.new := by
        simp [Limit.expandRange, h n (List.mem_cons_self n ns)]
      simpa [List.foldl, h1] using ih (fun m hm => h m (List.mem_cons_of_mem n hm))

/-- C6 witness: the theorem applied at concrete inputs, discharging the
finiteness hypotheses there. -/
theorem c6_expand_range_spec_witness :
    Limit.new.expandRange JNum.nan = Limit.new ∧
    List.foldl Limit.expandRange Limit.new [JNum.nan, JNum.pinf, JNum.ninf] = Limit.new :=
  ⟨c6_expand_range_spec.1 Limit.new JNum.nan rfl,
   c6_expand_range_spec.2.2.2.2 [JNum.nan, JNum.pinf, JNum.ninf] (by decide)⟩

/-! ### Name Resolution Index lemmas -/

theorem mapGet_insertNames_notMem (code : String) :
    ∀ (ns : List String) (m : JMap String) (n : String), n ∉ ns →
      mapGet (insertNames m ns code) n = mapGet m n := by
  intro ns
  induction ns with
  | nil => intro m n _; rfl
  | cons x ns ih =>
    intro m n hn
    have hx : n ≠ x := fun h => hn (h ▸ List.mem_cons_self x ns)
    have hns : n ∉ ns := fun h => hn (List.mem_cons_of_mem x h)
    show mapGet (insertNames (mapSet m x code) ns code) n = mapGet m n
    rw [ih (mapSet m x code) n hns, mapGet_mapSet_ne m x n code hx]

theorem mapGet_insertNames_mem (code : String) :
    ∀ (ns : List String) (m : JMap String) (n : String), n ∈ ns →
      mapGet (insertNames m ns code) n = some code := by
  intro ns
  induction ns with
  | nil => intro m n hn; exact absurd hn (List.not_mem_nil n)
  | cons x ns ih =>
    intro m n hn
    show mapGet (insertNames (mapSet m x code) ns code) n = some code
    by_cases h : n ∈ ns
    · exact ih (mapSet m x code) n h
    · have hx : n = x := by
        rcases List.mem_cons.mp hn with h1 | h1
        · exact h1
        · exact absurd h1 h
      subst hx
      rw [mapGet_insertNames_notMem code ns (mapSet m n code) n h,
        mapGet_mapSet_self]

theorem mapGet_recordsFold_notMem :
    ∀ (db : List CountryRecord) (m : JMap String) (n : String),
      (∀ d ∈ db, n ∉ recordNames d) →
      mapGet (db.foldl (fun m c => insertNames m (recordNames c) c.cca3) m) n
        = mapGet m n := by
  intro db
  induction db with
  | nil => intro m n _; rfl
  | cons d db ih =>
    intro m n hn
    show mapGet (db.foldl _ (insertNames m (recordNames d) d.cca3)) n = mapGet m n
    rw [ih _ n (fun d2 h2 => hn d2 (List.mem_cons_of_mem d h2)),
      mapGet_insertNames_notMem d.cca3 (recordNames d) m n (hn d (List.mem_cons_self d db))]

theorem mapGet_buildNameDB (pre post : List CountryRecord) (c : CountryRecord)
    (v : String) (hv : v ∈ recordNames c) (hpost : ∀ d ∈ post, v ∉ recordNames d) :
    mapGet (buildNameDB (pre ++ c :: post)) v = some c.cca3 := by
  show mapGet ((pre ++ c :: post).foldl (fun m c => insertNames m (recordNames c) c.cca3) []) v
    = some c.cca3
  rw [List.foldl_append, List.foldl_cons, mapGet_recordsFold_notMem post _ v hpost,
    mapGet_insertNames_mem c.cca3 (recordNames c) _ v hv]

theorem insertNames_values (P : String → Prop) (code : String) :
    ∀ (ns : List String) (m : JMap String),
      (∀ n c, mapGet m n = some c → P c) → P code →
      ∀ n c, mapGet (insertNames m ns code) n = some c → P c := by
  intro ns
  induction ns with
  | nil => intro m hm _ n c h; exact hm n c h
  | cons x ns ih =>
    intro m hm hcode n c h
    refine ih (mapSet m x code) (fun n2 c2 h2 => ?_) hcode n c h
    rcases mapGet_mapSet_cases m x n2 code c2 h2 with ⟨_, rfl⟩ | h3
    · exact hcode
    · exact hm n2 c2 h3

theorem recordsFold_values (P : String → Prop) :
    ∀ (db : List CountryRecord) (m : JMap String),
      (∀ n c, mapGet m n = some c → P c) → (∀ d ∈ db, P d.cca3) →
      ∀ n c,
        mapGet (db.foldl (fun m c => insertNames m (recordNames c) c.cca3) m) n = some c →
        P c := by
  intro db
  induction db with
  | nil => intro m hm _ n c h; exact hm n c h
  | cons d db ih =>
    intro m hm hdb n c h
    refine ih (insertNames m (recordNames d) d.cca3) ?_
      (fun d2 h2 => hdb d2 (List.mem_cons_of_mem d h2)) n c h
    exact insertNames_values P d.cca3 (recordNames d) m hm (hdb d (List.mem_cons_self d db))

theorem buildNameDB_values (db : List CountryRecord) (n c : String)
    (h : mapGet (buildNameDB db) n = some c) : ∃ d ∈ db, d.cca3 = c := by
  refine recordsFold_values (fun c => ∃ d ∈ db, d.cca3 = c) db [] ?_
    (fun d hd => ⟨d, hd, rfl⟩) n c h
  intro n2 c2 h2
  simp [mapGet] at h2

theorem foldl_mapSet_isSome {α : Type} (k : String) :
    ∀ (l : List (String × α)) (m : JMap α),
      ((mapGet m k).isSome = true ∨ ∃ p ∈ l, p.1 = k) →
      (mapGet (l.foldl (fun m p => mapSet m p.1 p.2) m) k).isSome = true := by
  intro l
  induction l with
  | nil =>
    intro m h
    rcases h with h | ⟨p, hp, _⟩
    · exact h
    · exact absurd hp (List.not_mem_nil p)
  | cons q l ih =>
    intro m h
    show (mapGet (l.foldl _ (mapSet m q.1 q.2)) k).isSome = true
    refine ih (mapSet m q.1 q.2) ?_
    by_cases hq : q.1 = k
    · subst hq
      rw [mapGet_mapSet_self]
      exact Or.inl rfl
    · rcases h with h | ⟨p, hp, hpk⟩
      · rw [mapGet_mapSet_ne m q.1 k q.2 (fun h2 => hq h2.symm)]
        exact Or.inl h
      · rcases List.mem_cons.mp hp with rfl | hp2
        · exact absurd hpk hq
        · exact Or.inr ⟨p, hp2, hpk⟩

theorem mapOfList_values {α : Type} (P : String → α → Prop) :
    ∀ (l : List (String × α)) (m : JMap α),
      (∀ k v, mapGet m k = some v → P k v) → (∀ p ∈ l, P p.1 p.2) →
      ∀ k v, mapGet (l.foldl (fun m p => mapSet m p.1 p.2) m) k = some v → P k v := by
  intro l
  induction l with
  | nil => intro m hm _ k v h; exact hm k v h
  | cons q l ih =>
    intro m hm hl k v h
    refine ih (mapSet m q.1 q.2) (fun k2 v2 h2 => ?_)
      (fun p hp => hl p (List.mem_cons_of_mem q hp)) k v h
    rcases mapGet_mapSet_cases m q.1 k2 q.2 v2 h2 with ⟨rfl, rfl⟩ | h3
    · exact hl q (List.mem_cons_self q l)
    · exact hm k2 v2 h3

theorem buildInfoDB_fields (db : List CountryRecord) (c : String) (e : InfoEntry)
    (h : mapGet (buildInfoDB db) c = some e) : e.code = c ∧ e.stats = none := by
  unfold buildInfoDB mapOfList at h
  refine mapOfList_values (fun k v => v.code = k ∧ v.stats = none)
    (db.map fun c =>
      (c.cca3, { code := c.cca3, name := c.nameCommon, region := c.region, stats := none }))
    [] ?_ ?_ c e h
  · intro k v hk; simp [mapGet] at hk
  · intro p hp
    rcases List.mem_map.mp hp with ⟨d, _, rfl⟩
    exact ⟨rfl, rfl⟩

theorem buildInfoDB_isSome (db : List CountryRecord) (c : String)
    (h : ∃ d ∈ db, d.cca3 = c) : (mapGet (buildInfoDB db) c).isSome = true := by
  rcases h with ⟨d, hd, rfl⟩
  refine foldl_mapSet_isSome d.cca3 _ [] (Or.inr ?_)
  exact ⟨(d.cca3, { code := d.cca3, name := d.nameCommon, region := d.region, stats := none }),
    List.mem_map.mpr ⟨d, hd, rfl⟩, rfl⟩

theorem resolveInfo_isSome (inp : LoadInput) (k : String)
    (h : (resolveCode inp k).isSome = true) : (resolveInfo inp k).isSome = true := by
  cases hc : resolveCode inp k with
  | none => rw [hc] at h; simp at h
  | some c =>
    have hmem := buildNameDB_values inp.countryDB (jsTrim k) c hc
    have hi := buildInfoDB_isSome inp.countryDB c hmem
    cases hg : mapGet (buildInfoDB inp.countryDB) c with
    | none => rw [hg] at hi; simp at hi
    | some e => simp [resolveInfo, hc, hg]

theorem orderVariant_mem_recordNames (c : CountryRecord) (n v : String)
    (hn : n ∈ baseNativeNames c) (hv : orderVariant n = some v) : v ∈ recordNames c := by
  have hm : v ∈ (baseNativeNames c).filterMap orderVariant :=
    List.mem_filterMap.mpr ⟨n, hn, hv⟩
  simp only [recordNames, List.mem_append]
  tauto

theorem forced_mem_recordNames (c : CountryRecord) (n : String)
    (hn : n ∈ (mapGet forcedCountryNames c.cca3).getD []) : n ∈ recordNames c := by
  simp only [recordNames, List.mem_append]
  tauto

/-- C2 counterexample: with a reference database holding the single record
for South Korea (official name "Republic of Korea"), the claimed variant
"Korea (Republic)" is nowhere in the index; the index holds
"Korea (Republic of)" instead, because the source keeps the word "of" in the
parenthesized part. -/
theorem c2_claim_counterexample :
    "Republic of Korea" ∈ baseNativeNames korRec ∧
    mapGet (buildNameDB [korRec]) "Korea (Republic)" = none ∧
    mapGet (buildNameDB [korRec]) "Korea (Republic of)" = some "KOR" := by decide

/-- C2 (amended): for every record and every name among its common,
official, and native names (the variant derivation runs before altSpellings
are appended) that contains " of ", the index maps the derived variant
"Suffix (Prefix of)" — the prefix keeps the word "of" — to that record's
code, provided no later record contributes the same name; and the variant
derived from "Republic of Korea" is "Korea (Republic of)". -/
theorem c2_order_variant_amended (pre post : List CountryRecord) (c : CountryRecord)
    (n v : String) (hn : n ∈ baseNativeNames c) (hv : orderVariant n = some v)
    (hpost : ∀ d ∈ post, v ∉ recordNames d) :
    mapGet (buildNameDB (pre ++ c :: post)) v = some c.cca3 ∧
    orderVariant "Republic of Korea" = some "Korea (Republic of)" :=
  ⟨mapGet_buildNameDB pre post c v (orderVariant_mem_recordNames c n v hn hv) hpost,
   by decide⟩

/-- C2 witness: the amended theorem applied to the South Korea record. -/
theorem c2_order_variant_amended_witness :
    mapGet (buildNameDB [korRec]) "Korea (Republic of)" = some "KOR" :=
  (c2_order_variant_amended [] [] korRec "Republic of Korea" "Korea (Republic of)"
    (by decide) (by decide) (by intro d hd; exact absurd hd (List.not_mem_nil d))).1

/-- C5 counterexample: the override table forces "Congo" onto code COD, yet
when a different record whose candidate set contains "Congo" comes later in
the reference database, the forced name resolves to that record's code, not
to COD. -/
theorem c5_claim_counterexample :
    codRec ∈ [codRec, aaaRec] ∧ codRec.cca3 = "COD" ∧
    "Congo" ∈ (mapGet forcedCountryNames codRec.cca3).getD [] ∧
    mapGet (buildNameDB [codRec, aaaRec]) "Congo" = some "AAA" := by decide

/-- C5 (amended): a forced name of a record maps to the code it is forced
to, winning over any collision with candidate names of the same record or of
records appearing earlier in the reference database, provided no later
record's candidate set contains that name (index insertion is
last-writer-wins across the whole database scan). -/
theorem c5_forced_names_amended (pre post : List CountryRecord) (c : CountryRecord)
    (n : String) (hn : n ∈ (mapGet forcedCountryNames c.cca3).getD [])
    (hpost : ∀ d ∈ post, n ∉ recordNames d) :
    mapGet (buildNameDB (pre ++ c :: post)) n = some c.cca3 :=
  mapGet_buildNameDB pre post c n (forced_mem_recordNames c n hn) hpost

/-- C5 witness: the amended theorem applied where the colliding record (base
name "Congo") comes before the COD record, so the override wins. -/
theorem c5_forced_names_amended_witness :
    mapGet (buildNameDB [aaaRec, codRec]) "Congo" = some "COD" :=
  c5_forced_names_amended [aaaRec] [] codRec "Congo" (by decide)
    (by intro d hd; exact absurd hd (List.not_mem_nil d))

/-! ### Per-country stats lemmas -/

theorem foldl_pair_fst {σ α β : Type} (f : α → σ → α) (g : β → σ → β) :
    ∀ (l : List σ) (a : α) (b : β),
      (l.foldl (fun p s => (f p.1 s, g p.2 s)) (a, b)).1 = l.foldl f a := by
  intro l
  induction l with
  | nil => intro a b; rfl
  | cons s l ih => intro a b; exact ih (f a s) (g b s)

theorem readCountryStats_fst (data : JMap (JMap CSVRow)) (countryName : String)
    (limits : StatLimits) :
    (readCountryStats data countryName limits).1 = statsOf data countryName :=
  foldl_pair_fst (fun m year => mapSet m year (yearStats data countryName year))
    (fun l year => yearLimits data countryName year l) years [] limits

theorem mapGet_setFold_notMem {α : Type} (f : String → α) :
    ∀ (ys : List String) (m : JMap α) (y : String), y ∉ ys →
      mapGet (ys.foldl (fun m y2 => mapSet m y2 (f y2)) m) y = mapGet m y := by
  intro ys
  induction ys with
  | nil => intro m y _; rfl
  | cons x ys ih =>
    intro m y hy
    have hx : y ≠ x := fun h => hy (h ▸ List.mem_cons_self x ys)
    have hys : y ∉ ys := fun h => hy (List.mem_cons_of_mem x h)
    show mapGet (ys.foldl _ (mapSet m x (f x))) y = mapGet m y
    rw [ih (mapSet m x (f x)) y hys, mapGet_mapSet_ne m x y (f x) hx]

theorem mapGet_setFold_mem {α : Type} (f : String → α) :
    ∀ (ys : List String) (m : JMap α) (y : String), y ∈ ys →
      mapGet (ys.foldl (fun m y2 => mapSet m y2 (f y2)) m) y = some (f y) := by
  intro ys
  induction ys with
  | nil => intro m y hy; exact absurd hy (List.not_mem_nil y)
  | cons x ys ih =>
    intro m y hy
    show mapGet (ys.foldl _ (mapSet m x (f x))) y = some (f y)
    by_cases h : y ∈ ys
    · exact ih (mapSet m x (f x)) y h
    · have hx : y = x := by
        rcases List.mem_cons.mp hy with h1 | h1
        · exact h1
        · exact absurd h1 h
      subst hx
      rw [mapGet_setFold_notMem f ys (mapSet m y (f y)) y h, mapGet_mapSet_self]

theorem statsOf_mapGet (data : JMap (JMap CSVRow)) (countryName : String) :
    ∀ y ∈ years, mapGet (statsOf data countryName) y = some (yearStats data countryName y) := by
  intro y hy
  exact mapGet_setFold_mem (fun y2 => yearStats data countryName y2) years [] y hy

/-! ### Load-step lemmas -/

theorem loadStep_ok_elim (ndb : JMap String) (data : JMap (JMap CSVRow)) (st : DataSource)
    (k : String) (st2 : DataSource) (h : loadStep ndb data st k = Except.ok st2) :
    ∃ c entry, mapGet ndb (jsTrim k) = some c ∧ mapGet st.registry c = some entry ∧
      st2 = { data := mapSet st.data entry.name entry.code,
              dataLimits := (readCountryStats data (jsTrim k) st.dataLimits).2,
              registry := mapSet st.registry entry.code
                { entry with stats := some (readCountryStats data (jsTrim k) st.dataLimits).1 } } := by
  cases hc : mapGet ndb (jsTrim k) with
  | none => simp [loadStep, hc] at h
  | some c =>
    cases he : mapGet st.registry c with
    | none => simp [loadStep, hc, he] at h
    | some entry =>
      refine ⟨c, entry, rfl, he, ?_⟩
      simp only [loadStep, hc, Option.some_bind, he, Except.ok.injEq] at h
      exact h.symm

theorem regInv_entry (db : List CountryRecord) (reg : JMap InfoEntry) (c : String)
    (entry : InfoEntry) (hreg : regInv db reg) (h : mapGet reg c = some entry) :
    ∃ e0, mapGet (buildInfoDB db) c = some e0 ∧ stripE e0 = stripE entry ∧
      entry.code = c := by
  have h1 := hreg c
  rw [h] at h1
  cases hi : mapGet (buildInfoDB db) c with
  | none => rw [hi] at h1; simp at h1
  | some e0 =>
    rw [hi] at h1
    simp only [Option.map_some'] at h1
    have h2 : stripE entry = stripE e0 := by injection h1
    have hcode : e0.code = c := (buildInfoDB_fields db c e0 hi).1
    have hec : entry.code = e0.code := congrArg (fun t => t.1) h2
    exact ⟨e0, rfl, h2.symm, hec.trans hcode⟩

theorem loadStep_regInv (db : List CountryRecord) (ndb : JMap String)
    (data : JMap (JMap CSVRow)) (st : DataSource) (k : String) (st2 : DataSource)
    (hreg : regInv db st.registry) (h : loadStep ndb data st k = Except.ok st2) :
    regInv db st2.registry := by
  obtain ⟨c, entry, hc, he, rfl⟩ := loadStep_ok_elim ndb data st k st2 h
  obtain ⟨e0, hi, hstrip, hcode⟩ := regInv_entry db st.registry c entry hreg he
  intro c2
  dsimp only
  by_cases hcc : c2 = entry.code
  · subst hcc
    rw [mapGet_mapSet_self, hcode, hi]
    simp only [Option.map_some', Option.some.injEq]
    rw [hstrip]
    simp [stripE, hcode]
  · rw [mapGet_mapSet_ne st.registry entry.code c2 _ hcc]
    exact hreg c2

theorem loadStep_statsInv (ndb : JMap String) (data : JMap (JMap CSVRow))
    (st : DataSource) (k : String) (st2 : DataSource)
    (hinv : statsInv data st) (h : loadStep ndb data st k = Except.ok st2) :
    statsInv data st2 := by
  obtain ⟨c, entry, hc, he, rfl⟩ := loadStep_ok_elim ndb data st k st2 h
  intro p hp
  dsimp only at hp ⊢
  rcases mem_mapSet st.data entry.name entry.code p hp with hold | rfl
  · obtain ⟨e, hge, n, hstats⟩ := hinv p hold
    by_cases hpc : p.2 = entry.code
    · refine ⟨{ entry with
          stats := some (readCountryStats data (jsTrim k) st.dataLimits).1 },
        ?_, jsTrim k, ?_⟩
      · rw [hpc, mapGet_mapSet_self]
      · dsimp only
        rw [readCountryStats_fst]
    · exact ⟨e, by rw [mapGet_mapSet_ne st.registry entry.code p.2 _ hpc]; exact hge,
        n, hstats⟩
  · refine ⟨{ entry with
        stats := some (readCountryStats data (jsTrim k) st.dataLimits).1 },
      ?_, jsTrim k, ?_⟩
    · exact mapGet_mapSet_self st.registry entry.code _
    · dsimp only
      rw [readCountryStats_fst]

theorem loadStep_ok_of_resolves (db : List CountryRecord) (data : JMap (JMap CSVRow))
    (st : DataSource) (k : String) (hreg : regInv db st.registry)
    (hk : (mapGet (buildNameDB db) (jsTrim k)).isSome = true) :
    ∃ st1, loadStep (buildNameDB db) data st k = Except.ok st1 := by
  cases hc : mapGet (buildNameDB db) (jsTrim k) with
  | none => rw [hc] at hk; simp at hk
  | some c =>
    have hmem := buildNameDB_values db (jsTrim k) c hc
    have hi := buildInfoDB_isSome db c hmem
    cases hg : mapGet (buildInfoDB db) c with
    | none => rw [hg] at hi; simp at hi
    | some e0 =>
      have h1 := hreg c
      rw [hg] at h1
      cases hr : mapGet st.registry c with
      | none => rw [hr] at h1; simp at h1
      | some entry =>
        refine ⟨{ data := mapSet st.data entry.name entry.code,
                  dataLimits := (readCountryStats data (jsTrim k) st.dataLimits).2,
                  registry := mapSet st.registry entry.code
                    { entry with
                      stats := some (readCountryStats data (jsTrim k) st.dataLimits).1 } }, ?_⟩
        simp [loadStep, hc, hr]

/-! ### Load-loop lemmas -/

theorem loadLoop_regInv (db : List CountryRecord) (ndb : JMap String)
    (data : JMap (JMap CSVRow)) :
    ∀ (keys : List String) (st st2 : DataSource),
      loadLoop ndb data keys st = Except.ok st2 → regInv db st.registry →
      regInv db st2.registry := by
  intro keys
  induction keys with
  | nil =>
    intro st st2 h hreg
    simp only [loadLoop, Except.ok.injEq] at h
    exact h ▸ hreg
  | cons k ks ih =>
    intro st st2 h hreg
    cases hs : loadStep ndb data st k with
    | error e => simp [loadLoop, hs] at h
    | ok st1 =>
      simp only [loadLoop, hs] at h
      exact ih st1 st2 h (loadStep_regInv db ndb data st k st1 hreg hs)

theorem loadLoop_statsInv (ndb : JMap String) (data : JMap (JMap CSVRow)) :
    ∀ (keys : List String) (st st2 : DataSource),
      loadLoop ndb data keys st = Except.ok st2 → statsInv data st →
      statsInv data st2 := by
  intro keys
  induction keys with
  | nil =>
    intro st st2 h hinv
    simp only [loadLoop, Except.ok.injEq] at h
    exact h ▸ hinv
  | cons k ks ih =>
    intro st st2 h hinv
    cases hs : loadStep ndb data st k with
    | error e => simp [loadLoop, hs] at h
    | ok st1 =>
      simp only [loadLoop, hs] at h
      exact ih st1 st2 h (loadStep_statsInv ndb data st k st1 hinv hs)

theorem loadLoop_ok_of_resolves (db : List CountryRecord) (data : JMap (JMap CSVRow)) :
    ∀ (keys : List String) (st : DataSource), regInv db st.registry →
      (∀ k ∈ keys, (mapGet (buildNameDB db) (jsTrim k)).isSome = true) →
      ∃ st2, loadLoop (buildNameDB db) data keys st = Except.ok st2 := by
  intro keys
  induction keys with
  | nil => intro st _ _; exact ⟨st, rfl⟩
  | cons k ks ih =>
    intro st hreg hres
    obtain ⟨st1, hstep⟩ := loadStep_ok_of_resolves db data st k hreg
      (hres k (List.mem_cons_self k ks))
    obtain ⟨st2, h2⟩ := ih st1 (loadStep_regInv db (buildNameDB db) data st k st1 hreg hstep)
      (fun k2 hk2 => hres k2 (List.mem_cons_of_mem k hk2))
    refine ⟨st2, ?_⟩
    simp only [loadLoop, hstep]
    exact h2

theorem loadLoop_error (db : List CountryRecord) (data : JMap (JMap CSVRow)) :
    ∀ (keys : List String) (st : DataSource), regInv db st.registry →
      (∃ k ∈ keys, mapGet (buildNameDB db) (jsTrim k) = none) →
      ∃ m ∈ keys, mapGet (buildNameDB db) (jsTrim m) = none ∧
        loadLoop (buildNameDB db) data keys st
          = Except.error ("No country info for " ++ jsTrim m) := by
  intro keys
  induction keys with
  | nil =>
    intro st _ hex
    rcases hex with ⟨k, hk, _⟩
    exact absurd hk (List.not_mem_nil k)
  | cons k ks ih =>
    intro st hreg hex
    by_cases hk : mapGet (buildNameDB db) (jsTrim k) = none
    · refine ⟨k, List.mem_cons_self k ks, hk, ?_⟩
      have hstep : loadStep (buildNameDB db) data st k
          = Except.error ("No country info for " ++ jsTrim k) := by
        simp [loadStep, hk]
      simp [loadLoop, hstep]
    · have hk2 : (mapGet (buildNameDB db) (jsTrim k)).isSome = true := by
        cases hg : mapGet (buildNameDB db) (jsTrim k) with
        | none => exact absurd hg hk
        | some c => rfl
      obtain ⟨st1, hstep⟩ := loadStep_ok_of_resolves db data st k hreg hk2
      rcases hex with ⟨k0, hk0, h0⟩
      rcases List.mem_cons.mp hk0 with rfl | hk0s
      · exact absurd h0 hk
      · obtain ⟨m, hm, hmn, herr⟩ := ih st1
          (loadStep_regInv db (buildNameDB db) data st k st1 hreg hstep) ⟨k0, hk0s, h0⟩
        refine ⟨m, List.mem_cons_of_mem k hm, hmn, ?_⟩
        simp only [loadLoop, hstep]
        exact herr

theorem loadLoop_preserve_at (db : List CountryRecord) (data : JMap (JMap CSVRow))
    (c : String) :
    ∀ (keys : List String) (st st2 : DataSource),
      loadLoop (buildNameDB db) data keys st = Except.ok st2 →
      regInv db st.registry →
      (∀ k ∈ keys, mapGet (buildNameDB db) (jsTrim k) ≠ some c) →
      mapGet st2.registry c = mapGet st.registry c := by
  intro keys
  induction keys with
  | nil =>
    intro st st2 h _ _
    simp only [loadLoop, Except.ok.injEq] at h
    rw [← h]
  | cons k ks ih =>
    intro st st2 h hreg hne
    cases hs : loadStep (buildNameDB db) data st k with
    | error e => simp [loadLoop, hs] at h
    | ok st1 =>
      simp only [loadLoop, hs] at h
      have hreg1 := loadStep_regInv db (buildNameDB db) data st k st1 hreg hs
      obtain ⟨c0, entry, hc0, he, hst1⟩ := loadStep_ok_elim _ _ _ _ _ hs
      obtain ⟨e0, hi0, hstrip, hcode⟩ := regInv_entry db st.registry c0 entry hreg he
      have hne0 : c ≠ entry.code := by
        intro heq
        apply hne k (List.mem_cons_self k ks)
        rw [hc0, heq, hcode]
      rw [ih st1 st2 h hreg1 (fun k2 hk2 => hne k2 (List.mem_cons_of_mem k hk2)), hst1]
      dsimp only
      exact mapGet_mapSet_ne st.registry entry.code c _ hne0

theorem loadLoop_entry_stats (db : List CountryRecord) (data : JMap (JMap CSVRow))
    (X c : String) :
    ∀ (keys : List String) (st st2 : DataSource),
      loadLoop (buildNameDB db) data keys st = Except.ok st2 →
      regInv db st.registry →
      X ∈ keys →
      mapGet (buildNameDB db) (jsTrim X) = some c →
      (∀ k ∈ keys, k ≠ X → mapGet (buildNameDB db) (jsTrim k) ≠ some c) →
      ∃ entry, mapGet st2.registry c = some entry ∧
        entry.stats = some (statsOf data (jsTrim X)) := by
  intro keys
  induction keys with
  | nil => intro st st2 _ _ hX _ _; exact absurd hX (List.not_mem_nil X)
  | cons k ks ih =>
    intro st st2 h hreg hX hcode huniq
    cases hs : loadStep (buildNameDB db) data st k with
    | error e => simp [loadLoop, hs] at h
    | ok st1 =>
      simp only [loadLoop, hs] at h
      have hreg1 := loadStep_regInv db (buildNameDB db) data st k st1 hreg hs
      by_cases hkX : k = X
      · subst hkX
        obtain ⟨c0, entry, hc0, he, hst1⟩ := loadStep_ok_elim _ _ _ _ _ hs
        have hcc : c0 = c := by
          rw [hc0] at hcode
          injection hcode
        subst hcc
        obtain ⟨e0, hi0, hstrip, hcodeE⟩ := regInv_entry db st.registry c0 entry hreg he
        by_cases hX2 : k ∈ ks
        · exact ih st1 st2 h hreg1 hX2 hcode
            (fun k2 hk2 => huniq k2 (List.mem_cons_of_mem k hk2))
        · have hpres : ∀ k2 ∈ ks, mapGet (buildNameDB db) (jsTrim k2) ≠ some c0 := by
            intro k2 hk2
            by_cases hk2X : k2 = k
            · subst hk2X; exact absurd hk2 hX2
            · exact huniq k2 (List.mem_cons_of_mem k hk2) hk2X
          have hpc := loadLoop_preserve_at db data c0 ks st1 st2 h hreg1 hpres
          refine ⟨{ entry with
              stats := some (readCountryStats data (jsTrim k) st.dataLimits).1 },
            ?_, ?_⟩
          · rw [hpc, hst1]
            dsimp only
            rw [← hcodeE]
            exact mapGet_mapSet_self st.registry entry.code _
          · dsimp only
            rw [readCountryStats_fst]
      · rcases List.mem_cons.mp hX with rfl | hX2
        · exact absurd rfl hkX
        · exact ih st1 st2 h hreg1 hX2 hcode
            (fun k2 hk2 hk2X => huniq k2 (List.mem_cons_of_mem k hk2) hk2X)

theorem loadLoop_data_char (inp : LoadInput) :
    ∀ (keys : List String) (st st2 : DataSource),
      loadLoop (buildNameDB inp.countryDB) (buildData inp) keys st = Except.ok st2 →
      regInv inp.countryDB st.registry →
      (∀ k ∈ keys, ∀ p, pairOf inp k = some p → mapGet st.data p.1 = none) →
      (((keys.filterMap (pairOf inp)).map Prod.fst).Nodup) →
      st2.data = st.data ++ keys.filterMap (pairOf inp) := by
  intro keys
  induction keys with
  | nil =>
    intro st st2 h _ _ _
    simp only [loadLoop, Except.ok.injEq] at h
    rw [← h]
    simp
  | cons k ks ih =>
    intro st st2 h hreg hfresh hnodup
    cases hs : loadStep (buildNameDB inp.countryDB) (buildData inp) st k with
    | error e => simp [loadLoop, hs] at h
    | ok st1 =>
      simp only [loadLoop, hs] at h
      have hreg1 := loadStep_regInv inp.countryDB _ _ st k st1 hreg hs
      obtain ⟨c0, entry, hc0, he, hst1⟩ := loadStep_ok_elim _ _ _ _ _ hs
      obtain ⟨e0, hi0, hstrip, hcodeE⟩ := regInv_entry inp.countryDB st.registry c0 entry hreg he
      have hri : resolveInfo inp k = some e0 := by
        simp [resolveInfo, resolveCode, hc0, hi0]
      have hpair : pairOf inp k = some (e0.name, e0.code) := by
        simp [pairOf, hri]
      have hname : e0.name = entry.name := congrArg (fun t => t.2.1) hstrip
      have hcode2 : e0.code = entry.code := congrArg (fun t => t.1) hstrip
      have hfr : mapGet st.data e0.name = none :=
        hfresh k (List.mem_cons_self k ks) (e0.name, e0.code) hpair
      have hdata1 : st1.data = st.data ++ [(e0.name, e0.code)] := by
        rw [hst1]
        dsimp only
        rw [← hname, ← hcode2]
        exact mapSet_of_get_none st.data e0.name e0.code hfr
      have hfm : (k :: ks).filterMap (pairOf inp)
          = (e0.name, e0.code) :: ks.filterMap (pairOf inp) := by
        simp [List.filterMap_cons, hpair]
      rw [hfm] at hnodup
      simp only [List.map_cons, List.nodup_cons] at hnodup
      obtain ⟨hnmem, hnodup2⟩ := hnodup
      have hfresh2 : ∀ k2 ∈ ks, ∀ p, pairOf inp k2 = some p →
          mapGet st1.data p.1 = none := by
        intro k2 hk2 p hp
        have h0 : mapGet st.data p.1 = none :=
          hfresh k2 (List.mem_cons_of_mem k hk2) p hp
        rw [hdata1, mapGet_append, h0]
        have hne : ¬ e0.name = p.1 := by
          intro heq
          apply hnmem
          rw [heq]
          exact List.mem_map.mpr ⟨p, List.mem_filterMap.mpr ⟨k2, hk2, hp⟩, rfl⟩
        simp [mapGet, hne]
      rw [ih st1 st2 h hreg1 hfresh2 hnodup2, hdata1, hfm]
      simp

theorem loadData_ok_of_resolves (inp : LoadInput)
    (hres : ∀ k ∈ anchorKeys inp, (resolveCode inp k).isSome = true) :
    ∃ ds, loadData inp = Except.ok ds :=
  loadLoop_ok_of_resolves inp.countryDB (buildData inp) (anchorKeys inp)
    { data := [], dataLimits := StatLimits.new, registry := buildInfoDB inp.countryDB }
    (fun c => rfl) hres

/-- C3: when some trimmed country name of the anchor (gdp) source has no
entry in the Name Resolution Index, loadData fails with the assertion
message naming an unresolved trimmed anchor name, and never returns a
DataSource (no partial dataset is observable). -/
theorem c3_unresolved_name_fails_load (inp : LoadInput) (k : String)
    (hk : k ∈ anchorKeys inp) (hnone : resolveCode inp k = none) :
    ∃ m ∈ anchorKeys inp, resolveCode inp m = none ∧
      loadData inp = Except.error ("No country info for " ++ jsTrim m) ∧
      ∀ ds : DataSource, loadData inp ≠ Except.ok ds := by
  obtain ⟨m, hm, hmn, herr⟩ := loadLoop_error inp.countryDB (buildData inp)
    (anchorKeys inp)
    { data := [], dataLimits := StatLimits.new, registry := buildInfoDB inp.countryDB }
    (fun c => rfl) ⟨k, hk, hnone⟩
  have herr2 : loadData inp = Except.error ("No country info for " ++ jsTrim m) := herr
  refine ⟨m, hm, hmn, herr2, ?_⟩
  intro ds hds
  rw [herr2] at hds
  exact Except.noConfusion hds

/-- C3 witness: the theorem applied to an input whose only anchor row is
"Republicland", a name absent from the reference database. -/
theorem c3_unresolved_name_fails_load_witness :
    ∃ m ∈ anchorKeys inpC3e, resolveCode inpC3e m = none ∧
      loadData inpC3e = Except.error ("No country info for " ++ jsTrim m) ∧
      ∀ ds : DataSource, loadData inpC3e ≠ Except.ok ds :=
  c3_unresolved_name_fails_load inpC3e "Republicland" (by decide) (by decide)

/-- C9 counterexample: the registry entry of CHL has no stats field
immediately after the registry is built, but after the join completes the
same entry carries one — Object.assign mutates the registry entry, so its
field set is not the same after the join. -/
theorem c9_claim_counterexample :
    ((mapGet (buildInfoDB inpC9.countryDB) "CHL").map fun e => e.stats.isSome)
        = some false ∧
    ((loadData inpC9).toOption.bind fun ds =>
      (mapGet ds.registry "CHL").map fun e => e.stats.isSome) = some true := by decide

/-- C9 (amended): the join never changes the code, name, or region field of
any registry entry — those agree pointwise with the registry as built — but
it does attach a stats field to the entries it publishes. -/
theorem c9_registry_static_fields (inp : LoadInput) (ds : DataSource)
    (h : loadData inp = Except.ok ds) :
    ∀ c, (mapGet ds.registry c).map stripE
      = (mapGet (buildInfoDB inp.countryDB) c).map stripE :=
  loadLoop_regInv inp.countryDB (buildNameDB inp.countryDB) (buildData inp)
    (anchorKeys inp) _ ds h (fun c => rfl)

/-- C9 witness: the amended theorem applied to the one-country input. -/
theorem c9_registry_static_fields_witness :
    ∃ ds, loadData inpC9 = Except.ok ds ∧
      (mapGet ds.registry "CHL").map stripE
        = (mapGet (buildInfoDB inpC9.countryDB) "CHL").map stripE := by
  obtain ⟨ds, hds⟩ := loadData_ok_of_resolves inpC9 (by decide)
  exact ⟨ds, hds, c9_registry_static_fields inpC9 ds hds "CHL"⟩

/-- C7: after a successful load the fixed year range is the 8 years 2010
through 2017, and every published country's stats map has an entry for every
one of them. -/
theorem c7_join_completeness (inp : LoadInput) (ds : DataSource)
    (h : loadData inp = Except.ok ds) :
    years = ["2010", "2011", "2012", "2013", "2014", "2015", "2016", "2017"] ∧
    years.length = 8 ∧
    ∀ e ∈ getCountries ds, ∃ m, e.stats = some m ∧
      ∀ y ∈ years, (mapGet m y).isSome = true := by
  refine ⟨rfl, rfl, ?_⟩
  intro e he
  rcases List.mem_filterMap.mp he with ⟨p, hp, hpe⟩
  have hinv := loadLoop_statsInv (buildNameDB inp.countryDB) (buildData inp)
    (anchorKeys inp) _ ds h (fun p hp2 => absurd hp2 (List.not_mem_nil p))
  obtain ⟨e2, hge, n, hstats⟩ := hinv p hp
  have he2 : e2 = e := by
    rw [hge] at hpe
    injection hpe
  subst he2
  refine ⟨statsOf (buildData inp) n, hstats, ?_⟩
  intro y hy
  rw [statsOf_mapGet (buildData inp) n y hy]
  rfl

/-- C7 witness: the theorem applied to a one-country input with a single
populated year cell; all eight years are present in the stats map. -/
theorem c7_join_completeness_witness :
    ∃ ds, loadData inpC7w = Except.ok ds ∧
      ∀ e ∈ getCountries ds, ∃ m, e.stats = some m ∧
        ∀ y ∈ years, (mapGet m y).isSome = true := by
  obtain ⟨ds, hds⟩ := loadData_ok_of_resolves inpC7w (by decide)
  exact ⟨ds, hds, (c7_join_completeness inpC7w ds hds).2.2⟩

/-- C4: after a successful load, provided the display names resolved from
the anchor keys are pairwise distinct, the published countries' static
fields are exactly those obtained by resolving the anchor (gdp) source's
trimmed row names, in the anchor source's row order; consequently every
published country comes from some anchor row, so a country present only in
a non-anchor source never appears. -/
theorem c4_anchor_enumeration (inp : LoadInput) (ds : DataSource)
    (h : loadData inp = Except.ok ds)
    (hnodup : (((anchorKeys inp).filterMap (pairOf inp)).map Prod.fst).Nodup) :
    (getCountries ds).map stripE
        = (anchorKeys inp).filterMap (fun k => (resolveInfo inp k).map stripE) ∧
    ∀ e ∈ getCountries ds, ∃ k ∈ anchorKeys inp, ∃ e0,
      resolveInfo inp k = some e0 ∧ stripE e0 = stripE e := by
  have hreg := loadLoop_regInv inp.countryDB (buildNameDB inp.countryDB) (buildData inp)
    (anchorKeys inp) _ ds h (fun c => rfl)
  have hdata := loadLoop_data_char inp (anchorKeys inp)
    { data := [], dataLimits := StatLimits.new, registry := buildInfoDB inp.countryDB }
    ds h (fun c => rfl) (fun k hk p hp => rfl) hnodup
  have hdata2 : ds.data = (anchorKeys inp).filterMap (pairOf inp) := by
    rw [hdata]
    simp
  have hmain : (getCountries ds).map stripE
      = (anchorKeys inp).filterMap (fun k => (resolveInfo inp k).map stripE) := by
    show (ds.data.filterMap fun p => mapGet ds.registry p.2).map stripE = _
    rw [hdata2, List.filterMap_filterMap, List.map_filterMap]
    congr 1
    funext k
    cases hri : resolveInfo inp k with
    | none => simp [pairOf, hri]
    | some e0 =>
      simp only [pairOf, hri, Option.map_some', Option.some_bind]
      cases hc : resolveCode inp k with
      | none => rw [resolveInfo, hc] at hri; simp at hri
      | some c =>
        have hio : mapGet (buildInfoDB inp.countryDB) c = some e0 := by
          rw [resolveInfo, hc] at hri
          simpa using hri
        have hcode : e0.code = c := (buildInfoDB_fields _ _ _ hio).1
        show (mapGet ds.registry e0.code).map stripE = some (stripE e0)
        rw [hcode, hreg c, hio]
        rfl
  refine ⟨hmain, ?_⟩
  intro e he
  have h1 : stripE e ∈ (getCountries ds).map stripE := List.mem_map_of_mem stripE he
  rw [hmain] at h1
  rcases List.mem_filterMap.mp h1 with ⟨k, hk, hke⟩
  cases hri : resolveInfo inp k with
  | none => rw [hri] at hke; simp at hke
  | some e0 =>
    rw [hri] at hke
    simp only [Option.map_some', Option.some.injEq] at hke
    exact ⟨k, hk, e0, hri, hke⟩

/-- C4 witness: the spec's scenario — Chile and Bulgaria in the anchor
source, Germany only in an inequality source; the published countries are
exactly Chile then Bulgaria, in the anchor row order. -/
theorem c4_anchor_enumeration_witness :
    ∃ ds, loadData inpC4 = Except.ok ds ∧
      (getCountries ds).map stripE
        = [("CHL", "Chile", "Americas"), ("BGR", "Bulgaria", "Europe")] := by
  obtain ⟨ds, hds⟩ := loadData_ok_of_resolves inpC4 (by decide)
  refine ⟨ds, hds, ?_⟩
  rw [(c4_anchor_enumeration inpC4 ds hds (by decide)).1]
  decide

/-- C8 counterexample: the income-inequality source (ineq_inc) has no row
for Chile, yet the load succeeds and Chile's stored income for 2010 is the
finite 0.4 taken from the ineq_life source — the sentinel lands in
life_expectancy instead of the missing source's own statistic, because
readCountryStats assigns the two fields from each other's source. -/
theorem c8_claim_counterexample :
    (mapGet (csvLoader inpC8ce.ineq_inc) (jsTrim "Chile") = none) ∧
    ((loadData inpC8ce).toOption.bind fun ds =>
      (getCountry ds "Chile").bind fun e => e.stats.bind fun m =>
        (mapGet m "2010").map fun cs =>
          (cs.inequality.income, cs.inequality.life_expectancy))
      = some (JNum.fin (mkRat 2 5), JNum.nan) := by decide

/-- C8 (amended): when every anchor name resolves, the load succeeds even
though a statistic source has no row for the anchor country X (resolving to
code c, no other anchor key resolving to c); X's published stats then carry
the NaN sentinel, for every year of the fixed range, in the field the join
computes from that source — combined for ineq_comb and education for
ineq_edu, but life_expectancy for ineq_inc and income for ineq_life, the
two the join reads from each other's source; likewise any single cell whose
raw value parses to NaN (gdp included) yields the sentinel in that source's
field for that one year, without failing the load. -/
theorem c8_missing_row_sentinel_amended (inp : LoadInput) (X c : String)
    (hres : ∀ k ∈ anchorKeys inp, (resolveCode inp k).isSome = true)
    (hX : X ∈ anchorKeys inp)
    (hcode : resolveCode inp X = some c)
    (huniq : ∀ k ∈ anchorKeys inp, k ≠ X → resolveCode inp k ≠ some c) :
    ∃ ds entry m, loadData inp = Except.ok ds ∧
      mapGet ds.registry c = some entry ∧ entry.stats = some m ∧
      ((mapGet (csvLoader inp.ineq_comb) (jsTrim X) = none) →
        ∀ y ∈ years, ∃ cs, mapGet m y = some cs ∧
          cs.inequality.combined = JNum.nan) ∧
      ((mapGet (csvLoader inp.ineq_edu) (jsTrim X) = none) →
        ∀ y ∈ years, ∃ cs, mapGet m y = some cs ∧
          cs.inequality.education = JNum.nan) ∧
      ((mapGet (csvLoader inp.ineq_inc) (jsTrim X) = none) →
        ∀ y ∈ years, ∃ cs, mapGet m y = some cs ∧
          cs.inequality.life_expectancy = JNum.nan) ∧
      ((mapGet (csvLoader inp.ineq_life) (jsTrim X) = none) →
        ∀ y ∈ years, ∃ cs, mapGet m y = some cs ∧
          cs.inequality.income = JNum.nan) ∧
      (∀ y ∈ years,
        parseFloatJS (fetchCell (buildData inp) (jsTrim X) "ineq_comb" y) = JNum.nan →
        ∃ cs, mapGet m y = some cs ∧ cs.inequality.combined = JNum.nan) ∧
      (∀ y ∈ years,
        parseFloatJS (fetchCell (buildData inp) (jsTrim X) "ineq_edu" y) = JNum.nan →
        ∃ cs, mapGet m y = some cs ∧ cs.inequality.education = JNum.nan) ∧
      (∀ y ∈ years,
        parseFloatJS (fetchCell (buildData inp) (jsTrim X) "ineq_inc" y) = JNum.nan →
        ∃ cs, mapGet m y = some cs ∧ cs.inequality.life_expectancy = JNum.nan) ∧
      (∀ y ∈ years,
        parseFloatJS (fetchCell (buildData inp) (jsTrim X) "ineq_life" y) = JNum.nan →
        ∃ cs, mapGet m y = some cs ∧ cs.inequality.income = JNum.nan) ∧
      (∀ y ∈ years,
        parseIntJS (fetchCell (buildData inp) (jsTrim X) "gdp" y) = JNum.nan →
        ∃ cs, mapGet m y = some cs ∧ cs.gdp = JNum.nan) := by
  obtain ⟨ds, hds⟩ := loadData_ok_of_resolves inp hres
  obtain ⟨entry, hge, hstats⟩ := loadLoop_entry_stats inp.countryDB (buildData inp) X c
    (anchorKeys inp)
    { data := [], dataLimits := StatLimits.new, registry := buildInfoDB inp.countryDB }
    ds hds (fun c2 => rfl) hX hcode huniq
  refine ⟨ds, entry, statsOf (buildData inp) (jsTrim X), hds, hge, hstats,
    ?_, ?_, ?_, ?_, ?_, ?_, ?_, ?_, ?_⟩
  · intro hmiss y hy
    have hcell : fetchCell (buildData inp) (jsTrim X) "ineq_comb" y = none := by
      unfold fetchCell
      rw [show (mapGet (buildData inp) "ineq_comb").getD []
          = csvLoader inp.ineq_comb from rfl, hmiss]
    refine ⟨yearStats (buildData inp) (jsTrim X) y,
      statsOf_mapGet (buildData inp) (jsTrim X) y hy, ?_⟩
    show parseFloatJS (fetchCell (buildData inp) (jsTrim X) "ineq_comb" y) = JNum.nan
    rw [hcell]
    rfl
  · intro hmiss y hy
    have hcell : fetchCell (buildData inp) (jsTrim X) "ineq_edu" y = none := by
      unfold fetchCell
      rw [show (mapGet (buildData inp) "ineq_edu").getD []
          = csvLoader inp.ineq_edu from rfl, hmiss]
    refine ⟨yearStats (buildData inp) (jsTrim X) y,
      statsOf_mapGet (buildData inp) (jsTrim X) y hy, ?_⟩
    show parseFloatJS (fetchCell (buildData inp) (jsTrim X) "ineq_edu" y) = JNum.nan
    rw [hcell]
    rfl
  · intro hmiss y hy
    have hcell : fetchCell (buildData inp) (jsTrim X) "ineq_inc" y = none := by
      unfold fetchCell
      rw [show (mapGet (buildData inp) "ineq_inc").getD []
          = csvLoader inp.ineq_inc from rfl, hmiss]
    refine ⟨yearStats (buildData inp) (jsTrim X) y,
      statsOf_mapGet (buildData inp) (jsTrim X) y hy, ?_⟩
    show parseFloatJS (fetchCell (buildData inp) (jsTrim X) "ineq_inc" y) = JNum.nan
    rw [hcell]
    rfl
  · intro hmiss y hy
    have hcell : fetchCell (buildData inp) (jsTrim X) "ineq_life" y = none := by
      unfold fetchCell
      rw [show (mapGet (buildData inp) "ineq_life").getD []
          = csvLoader inp.ineq_life from rfl, hmiss]
    refine ⟨yearStats (buildData inp) (jsTrim X) y,
      statsOf_mapGet (buildData inp) (jsTrim X) y hy, ?_⟩
    show parseFloatJS (fetchCell (buildData inp) (jsTrim X) "ineq_life" y) = JNum.nan
    rw [hcell]
    rfl
  · intro y hy hnan
    exact ⟨yearStats (buildData inp) (jsTrim X) y,
      statsOf_mapGet (buildData inp) (jsTrim X) y hy, hnan⟩
  · intro y hy hnan
    exact ⟨yearStats (buildData inp) (jsTrim X) y,
      statsOf_mapGet (buildData inp) (jsTrim X) y hy, hnan⟩
  · intro y hy hnan
    exact ⟨yearStats (buildData inp) (jsTrim X) y,
      statsOf_mapGet (buildData inp) (jsTrim X) y hy, hnan⟩
  · intro y hy hnan
    exact ⟨yearStats (buildData inp) (jsTrim X) y,
      statsOf_mapGet (buildData inp) (jsTrim X) y hy, hnan⟩
  · intro y hy hnan
    exact ⟨yearStats (buildData inp) (jsTrim X) y,
      statsOf_mapGet (buildData inp) (jsTrim X) y hy, hnan⟩

/-- C8 witness: the amended theorem applied where the combined-inequality
source has a row for Chile but none for Bulgaria, and the three remaining
inequality sources are empty. -/
theorem c8_missing_row_sentinel_amended_witness :
    ∃ ds entry m, loadData inpC8 = Except.ok ds ∧
      mapGet ds.registry "BGR" = some entry ∧ entry.stats = some m ∧
      ((mapGet (csvLoader inpC8.ineq_comb) (jsTrim "Bulgaria") = none) →
        ∀ y ∈ years, ∃ cs, mapGet m y = some cs ∧
          cs.inequality.combined = JNum.nan) ∧
      ((mapGet (csvLoader inpC8.ineq_edu) (jsTrim "Bulgaria") = none) →
        ∀ y ∈ years, ∃ cs, mapGet m y = some cs ∧
          cs.inequality.education = JNum.nan) ∧
      ((mapGet (csvLoader inpC8.ineq_inc) (jsTrim "Bulgaria") = none) →
        ∀ y ∈ years, ∃ cs, mapGet m y = some cs ∧
          cs.inequality.life_expectancy = JNum.nan) ∧
      ((mapGet (csvLoader inpC8.ineq_life) (jsTrim "Bulgaria") = none) →
        ∀ y ∈ years, ∃ cs, mapGet m y = some cs ∧
          cs.inequality.income = JNum.nan) ∧
      (∀ y ∈ years,
        parseFloatJS (fetchCell (buildData inpC8) (jsTrim "Bulgaria") "ineq_comb" y)
          = JNum.nan →
        ∃ cs, mapGet m y = some cs ∧ cs.inequality.combined = JNum.nan) ∧
      (∀ y ∈ years,
        parseFloatJS (fetchCell (buildData inpC8) (jsTrim "Bulgaria") "ineq_edu" y)
          = JNum.nan →
        ∃ cs, mapGet m y = some cs ∧ cs.inequality.education = JNum.nan) ∧
      (∀ y ∈ years,
        parseFloatJS (fetchCell (buildData inpC8) (jsTrim "Bulgaria") "ineq_inc" y)
          = JNum.nan →
        ∃ cs, mapGet m y = some cs ∧ cs.inequality.life_expectancy = JNum.nan) ∧
      (∀ y ∈ years,
        parseFloatJS (fetchCell (buildData inpC8) (jsTrim "Bulgaria") "ineq_life" y)
          = JNum.nan →
        ∃ cs, mapGet m y = some cs ∧ cs.inequality.income = JNum.nan) ∧
      (∀ y ∈ years,
        parseIntJS (fetchCell (buildData inpC8) (jsTrim "Bulgaria") "gdp" y)
          = JNum.nan →
        ∃ cs, mapGet m y = some cs ∧ cs.gdp = JNum.nan) :=
  c8_missing_row_sentinel_amended inpC8 "Bulgaria" "BGR" (by decide) (by decide)
    (by decide) (by decide)

/-- C1 evaluation at the failing input: with the four inequality sources
carrying 0.1 / 0.2 / 0.3 / 0.4 (comb / edu / inc / life) for Chile 2010, the
stored stats put the ineq_inc value 0.3 into life_expectancy and the
ineq_life value 0.4 into income — readCountryStats assigns the two fields
from each other's source, contradicting the claim (and the source file
naming) that income comes from ineq_inc and life_expectancy from ineq_life;
gdp, combined and education are as claimed. -/
theorem c1_income_life_expectancy_swapped :
    ((loadData inpC1).toOption.bind fun ds =>
      (getCountry ds "Chile").bind fun e => e.stats.bind fun m => mapGet m "2010")
      = some { gdp := JNum.fin 100,
               inequality := { combined := JNum.fin (mkRat 1 10),
                               education := JNum.fin (mkRat 1 5),
                               life_expectancy := JNum.fin (mkRat 3 10),
                               income := JNum.fin (mkRat 2 5) } } := by decide

/-- C10: on an input whose gdp field reads "3.5", the gdp Limit is expanded
with the float parse 3.5 while the stored gdp values are the integer parse 3
(populated year) and NaN (missing years), so both bounds of
getStatLimits().gdp are the fractional 3.5 and equal no stored gdp value. -/
theorem c10_gdp_limit_fractional :
    ((loadData inpC10).toOption.map fun ds => (getStatLimits ds).gdp)
      = some { min := JNum.fin (mkRat 7 2), max := JNum.fin (mkRat 7 2) } ∧
    ((loadData inpC10).toOption.map fun ds =>
      (getCountries ds).map fun e => (e.stats.getD []).map fun p => p.2.gdp)
      = some [[JNum.fin 3, JNum.nan, JNum.nan, JNum.nan, JNum.nan, JNum.nan,
               JNum.nan, JNum.nan]] ∧
    ((loadData inpC10).toOption.map fun ds =>
      (getCountries ds).all fun e => (e.stats.getD []).all fun p =>
        decide (p.2.gdp ≠ (getStatLimits ds).gdp.min ∧
                p.2.gdp ≠ (getStatLimits ds).gdp.max))
      = some true := by decide
